import Mathlib

/-!
Verification development for the PTY-wrapper core (`src/claude_pty.py`,
class `ClaudePTY`).  The Python class is shallowly embedded: the mutable
object becomes an explicit state record, every `sys.stdout.write` becomes
an element of a list of terminal commands (`TermCmd`, with `render` giving
the exact byte sequence written), every `process.send`/`process.write`
becomes an element of a list of strings sent to the child, and Python
strings are modelled as `List Char` where character-level work is done.
The POSIX (`IS_WINDOWS = False`) paths are the ones embedded, matching the
spec's focus.
-/

/-- One write to the real terminal.  Each constructor corresponds to one of
the control sequences the source emits (`render` gives the exact bytes);
`restoreTty`/`enterRaw` stand for the `termios`/`tty` calls, which change
terminal state without writing bytes. -/
inductive TermCmd where
  | setScrollRegion (top bottom : Int)
  | resetScrollRegion
  | clearScreen
  | cursorHome
  | saveCursor
  | restoreCursor
  | moveTo (row col : Int)
  | clearLine
  | setAttr (attrs : String)
  | text (s : List Char)
  | restoreTty
  | enterRaw
  deriving DecidableEq, Repr

/-- The exact bytes each command writes to the real terminal
(empty for the two `termios`-level actions). -/
def TermCmd.render : TermCmd → String
  | .setScrollRegion t b => "\x1b[" ++ toString t ++ ";" ++ toString b ++ "r"
  | .resetScrollRegion => "\x1b[r"
  | .clearScreen => "\x1b[2J"
  | .cursorHome => "\x1b[H"
  | .saveCursor => "\x1b[s"
  | .restoreCursor => "\x1b[u"
  | .moveTo r c => "\x1b[" ++ toString r ++ ";" ++ toString c ++ "H"
  | .clearLine => "\x1b[2K"
  | .setAttr a => "\x1b[" ++ a ++ "m"
  | .text s => String.mk s
  | .restoreTty => ""
  | .enterRaw => ""

/-- Constant `ClaudePTY.SCREEN_BUFFER_SIZE`. -/
def SCREEN_BUFFER_SIZE : Nat := 4000

/-- Constant `ClaudePTY.STATUS_BAR_LINES`. -/
def STATUS_BAR_LINES : Int := 2

/-- State of a `ClaudePTY` object.  `hasProcess`/`processAlive` model
`self.process` (`None` vs. a spawned handle and whether it is alive);
`oldTtySettings` models whether `self.old_tty_settings` holds a saved
(truthy) settings value; `childWinsize` records the PTY dimensions last
communicated to the child (spawn `dimensions` / `setwinsize`). -/
structure ClaudePTY where
  running : Bool
  hasProcess : Bool
  processAlive : Bool
  termLines : Int
  termCols : Int
  ptyLines : Int
  oldTtySettings : Bool
  childWinsize : Option (Int × Int)
  screenBuffer : List Char
  escBuffer : List Char
  statusLine1 : String
  statusLine2 : String
  needsStatusRedraw : Bool
  deriving DecidableEq, Repr

/-- Constructor `ClaudePTY.__init__`. -/
def initState : ClaudePTY where
  running := false
  hasProcess := false
  processAlive := false
  termLines := 24
  termCols := 80
  ptyLines := 24
  oldTtySettings := false
  childWinsize := none
  screenBuffer := []
  escBuffer := []
  statusLine1 := ""
  statusLine2 := ""
  needsStatusRedraw := false

/-- Method `ClaudePTY.start` composed with `_start_unix`.  `size` is the result of
`os.get_terminal_size()` (`none` when it raises `OSError`, in which case the
source falls back to 24×80); `rawOk` is whether `tcgetattr`/`setraw`
succeeded (on `termios.error` the source keeps `old_tty_settings = None`). -/
def ClaudePTY.start (st : ClaudePTY) (size : Option (Int × Int)) (rawOk : Bool) :
    ClaudePTY × List TermCmd :=
  let lines := (size.getD (24, 80)).1
  let cols := (size.getD (24, 80)).2
  let pty := lines - STATUS_BAR_LINES
  let st' : ClaudePTY :=
    { st with
      termLines := lines
      termCols := cols
      ptyLines := pty
      hasProcess := true
      processAlive := true
      childWinsize := some (pty, cols)
      oldTtySettings := rawOk
      running := true }
  (st', [TermCmd.setScrollRegion 1 pty] ++ if rawOk then [TermCmd.enterRaw] else [])

/-- Method `ClaudePTY._handle_resize`.  `size` is the result of
`os.get_terminal_size()`; `none` models the `OSError` branch, where the
handler does nothing.  When shrinking, the rows leaving the child's area
are blanked (save cursor, per-line move + clear, restore cursor) before
the scroll region is re-established. -/
def ClaudePTY.handleResize (st : ClaudePTY) (size : Option (Int × Int)) :
    ClaudePTY × List TermCmd :=
  match size with
  | none => (st, [])
  | some (lines, cols) =>
    let oldPty := st.ptyLines
    let pty := lines - STATUS_BAR_LINES
    let clearCmds :=
      if pty < oldPty then
        [TermCmd.saveCursor] ++
        ((List.range (oldPty - pty).toNat).map (fun i => pty + 1 + (i : Int))).flatMap
          (fun row => [TermCmd.moveTo row 1, TermCmd.clearLine]) ++
        [TermCmd.restoreCursor]
      else []
    let st' : ClaudePTY :=
      { st with
        termLines := lines
        termCols := cols
        ptyLines := pty
        childWinsize := if st.hasProcess then some (pty, cols) else st.childWinsize
        needsStatusRedraw := true }
    (st', clearCmds ++ [TermCmd.setScrollRegion 1 pty])

/-- A sequence of resize events processed in order, collecting the
terminal output of each. -/
def ClaudePTY.processResizes (st : ClaudePTY) :
    List (Option (Int × Int)) → ClaudePTY × List TermCmd
  | [] => (st, [])
  | e :: es =>
    let r₁ := st.handleResize e
    let r₂ := r₁.1.processResizes es
    (r₂.1, r₁.2 ++ r₂.2)

/-- The scroll region active on the real terminal after a list of writes,
starting from region `r₀` (`none` = full screen). -/
def activeScrollRegion (r₀ : Option (Int × Int)) (cmds : List TermCmd) :
    Option (Int × Int) :=
  cmds.foldl
    (fun acc cmd =>
      match cmd with
      | .setScrollRegion t b => some (t, b)
      | .resetScrollRegion => none
      | _ => acc)
    r₀

lemma activeScrollRegion_append (r₀ : Option (Int × Int)) (a b : List TermCmd) :
    activeScrollRegion r₀ (a ++ b) = activeScrollRegion (activeScrollRegion r₀ a) b :=
  List.foldl_append ..

lemma activeScrollRegion_snoc_set (r₀ : Option (Int × Int)) (a : List TermCmd)
    (t b : Int) :
    activeScrollRegion r₀ (a ++ [TermCmd.setScrollRegion t b]) = some (t, b) := by
  rw [activeScrollRegion_append]; rfl

lemma processResizes_region (es : List (Option (Int × Int))) :
    ∀ (st : ClaudePTY) (r : Option (Int × Int)), r = some (1, st.ptyLines) →
      activeScrollRegion r (st.processResizes es).2 =
        some (1, (st.processResizes es).1.ptyLines) := by
  induction es with
  | nil => intro st r h; simpa [ClaudePTY.processResizes, activeScrollRegion] using h
  | cons e es ih =>
    intro st r h
    cases e with
    | none =>
      simpa [ClaudePTY.processResizes, ClaudePTY.handleResize] using ih st r h
    | some sz =>
      obtain ⟨lines, cols⟩ := sz
      rw [ClaudePTY.processResizes]
      rw [activeScrollRegion_append]
      have hmid :
          activeScrollRegion r (st.handleResize (some (lines, cols))).2 =
            some (1, (st.handleResize (some (lines, cols))).1.ptyLines) := by
        rw [ClaudePTY.handleResize]
        simp only
        rw [activeScrollRegion_snoc_set]
      rw [hmid]
      exact ih _ _ rfl

/-- C1: while the Session is running, after `start` and after every resize
event completes, the scroll region established on the real terminal is
exactly `(1, child rows)`: `start` emits `ESC[1;<child rows>r`, and each
completed resize re-emits it with the newly computed child rows, so the
active scroll region after the accumulated output always equals
`(1, ptyLines)` of the current state. -/
theorem scroll_region_invariant (size : Option (Int × Int)) (rawOk : Bool)
    (resizes : List (Option (Int × Int))) (r₀ : Option (Int × Int)) :
    activeScrollRegion r₀ (initState.start size rawOk).2 =
      some (1, (initState.start size rawOk).1.ptyLines) ∧
    activeScrollRegion r₀
        ((initState.start size rawOk).2 ++
          ((initState.start size rawOk).1.processResizes resizes).2) =
      some (1, ((initState.start size rawOk).1.processResizes resizes).1.ptyLines) ∧
    TermCmd.setScrollRegion 1 (initState.start size rawOk).1.ptyLines ∈
      (initState.start size rawOk).2 ∧
    (∀ n : Int, TermCmd.render (TermCmd.setScrollRegion 1 n) =
      "\x1b[1;" ++ toString n ++ "r") := by
  have hstart : activeScrollRegion r₀ (initState.start size rawOk).2 =
      some (1, (initState.start size rawOk).1.ptyLines) := by
    rw [ClaudePTY.start]
    cases rawOk <;> simp [activeScrollRegion]
  refine ⟨hstart, ?_, ?_, fun n => rfl⟩
  · rw [activeScrollRegion_append]
    exact processResizes_region resizes _ _ hstart
  · rw [ClaudePTY.start]
    cases rawOk <;> simp

/-- C2: for every terminal size with `rows ≥ 3`, after `start` completes and
after any resize completes, the rows available to the child equal the
terminal rows minus the two reserved overlay rows:
`child rows + 2 = terminal rows`. -/
theorem child_rows_eq_rows_sub_two (rows cols : Int) (rawOk : Bool)
    (st : ClaudePTY) (h : 3 ≤ rows) :
    (initState.start (some (rows, cols)) rawOk).1.ptyLines + 2 = rows ∧
    (st.handleResize (some (rows, cols))).1.ptyLines + 2 = rows := by
  constructor
  · simp [ClaudePTY.start, STATUS_BAR_LINES]
  · simp [ClaudePTY.handleResize, STATUS_BAR_LINES]

/-- Witness for C2 at a concrete 24×80 terminal. -/
theorem child_rows_eq_rows_sub_two_witness :
    (initState.start (some (24, 80)) true).1.ptyLines + 2 = 24 ∧
    (initState.handleResize (some (24, 80))).1.ptyLines + 2 = 24 :=
  child_rows_eq_rows_sub_two 24 80 true initState (by decide)

/-- The screen-buffer append performed by `_read_output_unix` /
`_read_output_windows`: `self._screen_buffer += data`, then if the length
exceeds `SCREEN_BUFFER_SIZE` keep only the last `SCREEN_BUFFER_SIZE`
characters (`self._screen_buffer[-self.SCREEN_BUFFER_SIZE:]`). -/
def screenAppend (buf data : List Char) : List Char :=
  if SCREEN_BUFFER_SIZE < (buf ++ data).length then
    (buf ++ data).drop ((buf ++ data).length - SCREEN_BUFFER_SIZE)
  else buf ++ data

lemma screenAppend_length (buf data : List Char)
    (h : buf.length ≤ SCREEN_BUFFER_SIZE) :
    (screenAppend buf data).length ≤ SCREEN_BUFFER_SIZE := by
  unfold screenAppend
  split
  · simp; omega
  · simp only [not_lt, List.length_append] at *; omega

lemma screenAppend_suffix (buf data : List Char) :
    (screenAppend buf data).IsSuffix (buf ++ data) := by
  unfold screenAppend
  split
  · exact List.drop_suffix _ _
  · exact List.suffix_refl _

lemma screenAppend_fold_aux (datas : List (List Char)) :
    ∀ buf : List Char, buf.length ≤ SCREEN_BUFFER_SIZE →
      (datas.foldl screenAppend buf).length ≤ SCREEN_BUFFER_SIZE ∧
      (datas.foldl screenAppend buf).IsSuffix (buf ++ datas.flatten) := by
  induction datas with
  | nil => intro buf h; exact ⟨h, by simpa using List.suffix_refl buf⟩
  | cons d ds ih =>
    intro buf h
    have hlen : (screenAppend buf d).length ≤ SCREEN_BUFFER_SIZE :=
      screenAppend_length buf d h
    obtain ⟨ih₁, ih₂⟩ := ih (screenAppend buf d) hlen
    refine ⟨by simpa using ih₁, ?_⟩
    obtain ⟨t, ht⟩ := screenAppend_suffix buf d
    obtain ⟨u, hu⟩ := ih₂
    refine ⟨t ++ u, ?_⟩
    simp only [List.foldl_cons, List.flatten_cons]
    rw [List.append_assoc t u, hu, ← List.append_assoc, ht, List.append_assoc]

/-- C5: starting from the empty buffer, after any number of appends the
Screen Buffer never exceeds its 4000-character capacity, and its contents
are always a suffix of the full history of appended child output
(trimming removes only from the front). -/
theorem screen_buffer_bounded_and_suffix (datas : List (List Char)) :
    (datas.foldl screenAppend []).length ≤ SCREEN_BUFFER_SIZE ∧
    (datas.foldl screenAppend []).IsSuffix datas.flatten := by
  have := screenAppend_fold_aux datas [] (by simp [SCREEN_BUFFER_SIZE])
  simpa using this

/-- Python `str.ljust`: pad `s` on the right with spaces to width `w`. -/
def lJust (s : List Char) (w : Nat) : List Char :=
  s ++ List.replicate (w - s.length) ' '

/-- The text written for one status line:
`f" {line:<{term_cols - 1}}"[:term_cols]` — a leading space plus the text
left-justified to width `term_cols - 1`, truncated to `term_cols`. -/
def statusLineText (s : List Char) (cols : Int) : List Char :=
  (' ' :: lJust s (cols - 1).toNat).take cols.toNat

lemma statusLineText_length (s : List Char) (cols : Int) (h : 0 < cols) :
    (statusLineText s cols).length = cols.toNat := by
  unfold statusLineText lJust
  simp only [List.length_take, List.length_cons, List.length_append,
    List.length_replicate]
  omega

/-- Method `ClaudePTY.draw_status_bar`: a no-op unless running; otherwise stores
both lines and writes them into rows `term_lines - 1` and `term_lines`
with save/move/clear/attribute/write/reset/restore. -/
def ClaudePTY.drawStatusBar (st : ClaudePTY) (line1 : String) (line2 : String := "") :
    ClaudePTY × List TermCmd :=
  if st.running then
    ({ st with statusLine1 := line1, statusLine2 := line2 },
     [TermCmd.saveCursor,
      TermCmd.moveTo (st.termLines - 1) 1, TermCmd.clearLine, TermCmd.setAttr "30;47",
      TermCmd.text (statusLineText line1.data st.termCols), TermCmd.setAttr "0",
      TermCmd.moveTo st.termLines 1, TermCmd.clearLine, TermCmd.setAttr "97",
      TermCmd.text (statusLineText line2.data st.termCols), TermCmd.setAttr "0",
      TermCmd.restoreCursor])
  else (st, [])

/-- C10: for every pair of status texts and every state with a positive
terminal width, each of the two status lines written by `draw_status_bar`
is exactly `term_cols` characters long, and every cursor move in the
emitted output targets only rows `term_lines - 1` and `term_lines`
(column 1). -/
theorem status_bar_width_and_rows (st : ClaudePTY) (l1 l2 : String)
    (hcols : 0 < st.termCols) (hrun : st.running = true) :
    (∀ s, TermCmd.text s ∈ (st.drawStatusBar l1 l2).2 → s.length = st.termCols.toNat) ∧
    (∀ r c, TermCmd.moveTo r c ∈ (st.drawStatusBar l1 l2).2 →
      (r = st.termLines - 1 ∨ r = st.termLines) ∧ c = 1) := by
  constructor
  · intro s hs
    simp only [ClaudePTY.drawStatusBar, hrun, if_true, List.mem_cons,
      List.mem_singleton, List.not_mem_nil, or_false, reduceCtorEq, false_or] at hs
    rcases hs with h | h <;> rw [TermCmd.text.injEq] at h <;>
      rw [h] <;> exact statusLineText_length _ _ hcols
  · intro r c hm
    simp only [ClaudePTY.drawStatusBar, hrun, if_true, List.mem_cons,
      List.mem_singleton, List.not_mem_nil, or_false, reduceCtorEq, false_or] at hm
    rcases hm with h | h <;> rw [TermCmd.moveTo.injEq] at h <;>
      exact ⟨by tauto, h.2⟩

/-- Witness for C10 on a running 24×80 session. -/
theorem status_bar_width_and_rows_witness :
    (∀ s, TermCmd.text s ∈
        (({ initState with running := true }).drawStatusBar "Listening" "idle").2 →
        s.length = ({ initState with running := true } : ClaudePTY).termCols.toNat) ∧
    (∀ r c, TermCmd.moveTo r c ∈
        (({ initState with running := true }).drawStatusBar "Listening" "idle").2 →
      (r = ({ initState with running := true } : ClaudePTY).termLines - 1 ∨
        r = ({ initState with running := true } : ClaudePTY).termLines) ∧ c = 1) :=
  status_bar_width_and_rows { initState with running := true } "Listening" "idle"
    (by decide) rfl

/-- The `key_map` dictionary of `ClaudePTY.send_key`. -/
def keyMap (k : String) : Option String :=
  if k = "enter" then some "\r"
  else if k = "return" then some "\r"
  else if k = "escape" then some "\x1b"
  else if k = "esc" then some "\x1b"
  else if k = "up" then some "\x1b[A"
  else if k = "down" then some "\x1b[B"
  else if k = "right" then some "\x1b[C"
  else if k = "left" then some "\x1b[D"
  else if k = "tab" then some "\t"
  else if k = "shift+tab" then some "\x1b[Z"
  else if k = "backtab" then some "\x1b[Z"
  else if k = "backspace" then some "\x7f"
  else if k = "delete" then some "\x1b[3~"
  else if k = "home" then some "\x1b[H"
  else if k = "end" then some "\x1b[F"
  else none

/-- Method `ClaudePTY.send`: a no-op unless a process exists and the session is
running; otherwise two writes to the child, the text and `"\r"`. -/
def ClaudePTY.send (st : ClaudePTY) (text : String) : List String :=
  if !st.hasProcess || !st.running then [] else [text, "\r"]

/-- Method `ClaudePTY.send_key`: a no-op unless a process exists and the session is
running; a named key is looked up (lowercased) in `key_map`; a single
character and any unknown name are both sent as-is. -/
def ClaudePTY.sendKey (st : ClaudePTY) (key : String) : List String :=
  if !st.hasProcess || !st.running then []
  else
    match keyMap key.toLower with
    | some d => [d]
    | none => [key]

/-- Method `ClaudePTY.send_keys`: each key is sent via `send_key` (the inter-key
`time.sleep(delay)` has no observable effect in the model). -/
def ClaudePTY.sendKeys (st : ClaudePTY) (keys : List String) : List String :=
  keys.flatMap st.sendKey

/-- Method `ClaudePTY.send_escape`. -/
def ClaudePTY.sendEscape (st : ClaudePTY) : List String :=
  if !st.hasProcess || !st.running then [] else st.sendKey "escape"

/-- Method `ClaudePTY.send_interrupt` (`sendcontrol("c")` writes `\x03`). -/
def ClaudePTY.sendInterrupt (st : ClaudePTY) : List String :=
  if !st.hasProcess || !st.running then [] else ["\x03"]

/-- C7: every Session operation invoked while the running flag is unset
(before `start()` completes or after `stop()`) — `send`, `send_key`,
`send_keys`, `send_escape`, `send_interrupt`, `draw_status_bar` — is a
silent no-op: nothing is sent to the child, nothing is written to the
terminal, the state is untouched, and (being total functions) none can
raise. -/
theorem not_running_ops_are_noops (st : ClaudePTY) (hrun : st.running = false)
    (text key : String) (keys : List String) (l1 l2 : String) :
    st.send text = [] ∧ st.sendKey key = [] ∧ st.sendKeys keys = [] ∧
    st.sendEscape = [] ∧ st.sendInterrupt = [] ∧
    st.drawStatusBar l1 l2 = (st, []) := by
  have hk : ∀ k : String, st.sendKey k = [] := by
    intro k; simp [ClaudePTY.sendKey, hrun]
  refine ⟨by simp [ClaudePTY.send, hrun], hk key, ?_, ?_, ?_, ?_⟩
  · simp only [ClaudePTY.sendKeys]
    induction keys with
    | nil => rfl
    | cons k ks ih => simp [hk, ih]
  · simp [ClaudePTY.sendEscape, hrun]
  · simp [ClaudePTY.sendInterrupt, hrun]
  · simp [ClaudePTY.drawStatusBar, hrun]

/-- Witness for C7 on the freshly constructed (never-started) state. -/
theorem not_running_ops_are_noops_witness :
    initState.send "hello" = [] ∧ initState.sendKey "down" = [] ∧
    initState.sendKeys ["down", "down", "enter"] = [] ∧
    initState.sendEscape = [] ∧ initState.sendInterrupt = [] ∧
    initState.drawStatusBar "a" "b" = (initState, []) :=
  not_running_ops_are_noops initState rfl "hello" "down" ["down", "down", "enter"]
    "a" "b"

/-- Method `ClaudePTY._restore_terminal` (POSIX branch, with the `tcsetattr`
succeeding when settings were saved): restore and clear the saved raw-mode
settings, then reset the scroll region, clear the screen and home the
cursor. -/
def ClaudePTY.restoreTerminal (st : ClaudePTY) : ClaudePTY × List TermCmd :=
  let p := if st.oldTtySettings then
      (({ st with oldTtySettings := false } : ClaudePTY), [TermCmd.restoreTty])
    else (st, [])
  (p.1, p.2 ++ [TermCmd.resetScrollRegion, TermCmd.clearScreen, TermCmd.cursorHome])

/-- Method `ClaudePTY.stop`: clear the running flag, restore the terminal, close
the child handle if one exists. -/
def ClaudePTY.stop (st : ClaudePTY) : ClaudePTY × List TermCmd :=
  let p := ({ st with running := false } : ClaudePTY).restoreTerminal
  (if p.1.hasProcess then { p.1 with processAlive := false } else p.1, p.2)

/-- Abstract state of the real terminal, as far as the emitted control
sequences drive it: the active scroll region, the cursor and its saved
copy, the current attribute setting, the visible writes since the last
full clear, and whether raw mode is active. -/
structure TermState where
  scrollRegion : Option (Int × Int)
  cursor : Int × Int
  savedCursor : Int × Int
  attrs : String
  writes : List ((Int × Int) × List Char)
  rawMode : Bool
  deriving DecidableEq, Repr

/-- Effect of one emitted command on the terminal state. -/
def applyCmd (ts : TermState) : TermCmd → TermState
  | .setScrollRegion t b => { ts with scrollRegion := some (t, b) }
  | .resetScrollRegion => { ts with scrollRegion := none }
  | .clearScreen => { ts with writes := [] }
  | .cursorHome => { ts with cursor := (1, 1) }
  | .saveCursor => { ts with savedCursor := ts.cursor }
  | .restoreCursor => { ts with cursor := ts.savedCursor }
  | .moveTo r c => { ts with cursor := (r, c) }
  | .clearLine => { ts with writes := ts.writes.filter (fun w => w.1.1 ≠ ts.cursor.1) }
  | .setAttr a => { ts with attrs := a }
  | .text s => { ts with writes := ts.writes ++ [(ts.cursor, s)],
                         cursor := (ts.cursor.1, ts.cursor.2 + s.length) }
  | .restoreTty => { ts with rawMode := false }
  | .enterRaw => { ts with rawMode := true }

def applyCmds (ts : TermState) (cmds : List TermCmd) : TermState :=
  cmds.foldl applyCmd ts

/-- C8: `stop()` is idempotent.  A second `stop()` leaves the Session state
exactly as the first left it and leaves the terminal in the same restored
state as one call: scroll region reset to full size, screen cleared,
cursor homed, and raw mode off whenever raw-mode settings had been saved
(`rawMode = ts.rawMode && !st.oldTtySettings`); being a total function, the
second call cannot raise. -/
theorem stop_idempotent (st : ClaudePTY) (ts : TermState) :
    (st.stop.1.stop).1 = st.stop.1 ∧
    applyCmds (applyCmds ts st.stop.2) st.stop.1.stop.2 = applyCmds ts st.stop.2 ∧
    (applyCmds ts st.stop.2).scrollRegion = none ∧
    (applyCmds ts st.stop.2).writes = [] ∧
    (applyCmds ts st.stop.2).cursor = (1, 1) ∧
    (applyCmds ts st.stop.2).rawMode = (ts.rawMode && !st.oldTtySettings) := by
  obtain ⟨r, hp, pa, tl, tc, pl, tty, cw, sb, eb, s1, s2, nr⟩ := st
  cases tty <;> cases hp <;> cases pa <;>
    simp [ClaudePTY.stop, ClaudePTY.restoreTerminal, applyCmds, applyCmd]

/-- Method `ClaudePTY._restore_status_bar`: re-emit the session's own scroll
region, then redraw the stored status bar if line 1 is non-empty. -/
def ClaudePTY.restoreStatusBar (st : ClaudePTY) : ClaudePTY × List TermCmd :=
  if st.statusLine1 ≠ "" then
    let p := st.drawStatusBar st.statusLine1 st.statusLine2
    (p.1, [TermCmd.setScrollRegion 1 st.ptyLines] ++ p.2)
  else (st, [TermCmd.setScrollRegion 1 st.ptyLines])

/-- Method `ClaudePTY._track_escape_sequence`.  `char == '\x1b'` starts (or
restarts) accumulation; while accumulating, a letter or `'~'` completes the
sequence (`char.isalpha()` is modelled by the ASCII `Char.isAlpha`), a
completed sequence equal to `"\x1b[r"` triggers `_restore_status_bar`, and
a buffer growing beyond 20 characters is discarded.  The `DEBUG_ESCAPES`
logging branch is dead code (`DEBUG_ESCAPES = False`). -/
def ClaudePTY.trackEscapeSequence (st : ClaudePTY) (c : Char) :
    ClaudePTY × List TermCmd :=
  if c = '\x1b' then ({ st with escBuffer := [c] }, [])
  else if st.escBuffer ≠ [] then
    let buf := st.escBuffer ++ [c]
    if c.isAlpha || c = '~' then
      if buf = ['\x1b', '[', 'r'] then
        let p := ({ st with escBuffer := buf } : ClaudePTY).restoreStatusBar
        ({ p.1 with escBuffer := [] }, p.2)
      else ({ st with escBuffer := [] }, [])
    else if 20 < buf.length then ({ st with escBuffer := [] }, [])
    else ({ st with escBuffer := buf }, [])
  else (st, [])

/-- One iteration of `_read_output_unix` for one child character: relay the
character to the real terminal, feed it to the escape tracker (whose
output, if any, is written next), then append it to the screen buffer. -/
def ClaudePTY.processOutputChar (st : ClaudePTY) (c : Char) :
    ClaudePTY × List TermCmd :=
  let p := st.trackEscapeSequence c
  ({ p.1 with screenBuffer := screenAppend p.1.screenBuffer [c] },
   TermCmd.text [c] :: p.2)

/-- The output relay applied to a stream of child characters. -/
def ClaudePTY.processOutput (st : ClaudePTY) : List Char → ClaudePTY × List TermCmd
  | [] => (st, [])
  | c :: rest =>
    let p := st.processOutputChar c
    let q := p.1.processOutput rest
    (q.1, p.2 ++ q.2)

lemma restoreStatusBar_flag (s : ClaudePTY) :
    s.restoreStatusBar.1.needsStatusRedraw = s.needsStatusRedraw := by
  unfold ClaudePTY.restoreStatusBar ClaudePTY.drawStatusBar
  split_ifs <;> rfl

lemma restoreStatusBar_snd_congr (s t : ClaudePTY)
    (h1 : s.statusLine1 = t.statusLine1) (h2 : s.statusLine2 = t.statusLine2)
    (h3 : s.ptyLines = t.ptyLines) (h4 : s.termLines = t.termLines)
    (h5 : s.termCols = t.termCols) (h6 : s.running = t.running) :
    s.restoreStatusBar.2 = t.restoreStatusBar.2 := by
  unfold ClaudePTY.restoreStatusBar ClaudePTY.drawStatusBar
  rw [h1, h2, h3, h4, h5, h6]
  split_ifs <;> rfl

lemma restoreStatusBar_mem (s : ClaudePTY) :
    TermCmd.setScrollRegion 1 s.ptyLines ∈ s.restoreStatusBar.2 := by
  unfold ClaudePTY.restoreStatusBar
  split_ifs <;> simp

lemma restoreStatusBar_snd (s : ClaudePTY) :
    s.restoreStatusBar.2 =
      TermCmd.setScrollRegion 1 s.ptyLines ::
        (if s.statusLine1 ≠ "" then
          (s.drawStatusBar s.statusLine1 s.statusLine2).2
         else []) := by
  unfold ClaudePTY.restoreStatusBar
  split_ifs with h <;> simp

lemma processOutputChar_esc (st : ClaudePTY) :
    st.processOutputChar '\x1b' =
      ({ st with escBuffer := ['\x1b'],
                 screenBuffer := screenAppend st.screenBuffer ['\x1b'] },
       [TermCmd.text ['\x1b']]) := by
  simp [ClaudePTY.processOutputChar, ClaudePTY.trackEscapeSequence]

lemma processOutputChar_lbracket (st : ClaudePTY) (h : st.escBuffer = ['\x1b']) :
    st.processOutputChar '[' =
      ({ st with escBuffer := ['\x1b', '['],
                 screenBuffer := screenAppend st.screenBuffer ['['] },
       [TermCmd.text ['[']]) := by
  have h1 : ('[' : Char) ≠ '\x1b' := by decide
  have h2 : ('[' : Char).isAlpha = false := by decide
  have h3 : ('[' : Char) ≠ '~' := by decide
  simp [ClaudePTY.processOutputChar, ClaudePTY.trackEscapeSequence, h, h1, h2, h3]

lemma processOutputChar_r (st : ClaudePTY) (h : st.escBuffer = ['\x1b', '[']) :
    st.processOutputChar 'r' =
      ({ (({ st with escBuffer := ['\x1b', '[', 'r'] } : ClaudePTY).restoreStatusBar).1
           with
           escBuffer := [],
           screenBuffer := screenAppend
             (({ st with escBuffer := ['\x1b', '[', 'r'] } :
                 ClaudePTY).restoreStatusBar).1.screenBuffer ['r'] },
       TermCmd.text ['r'] ::
         (({ st with escBuffer := ['\x1b', '[', 'r'] } :
             ClaudePTY).restoreStatusBar).2) := by
  have h1 : ('r' : Char) ≠ '\x1b' := by decide
  have h2 : ('r' : Char).isAlpha = true := by decide
  simp [ClaudePTY.processOutputChar, ClaudePTY.trackEscapeSequence, h, h1, h2]

lemma processOutput_append (a : List Char) :
    ∀ (st : ClaudePTY) (b : List Char),
      st.processOutput (a ++ b) =
        (((st.processOutput a).1.processOutput b).1,
          (st.processOutput a).2 ++ ((st.processOutput a).1.processOutput b).2) := by
  induction a with
  | nil => intro st b; simp [ClaudePTY.processOutput]
  | cons c a ih =>
    intro st b
    simp only [List.cons_append, ClaudePTY.processOutput, List.append_eq]
    rw [ih]
    simp [List.append_assoc]

/-- C3 counterexample: feeding the exact bytes `ESC [ r` through the
tracker of a running session (with stored status text, empty accumulator,
redraw flag clear) does NOT set the redraw-needed flag
`_needs_status_redraw`: the source's `_restore_status_bar` re-issues the
scroll region and redraws immediately instead of flagging a deferred
redraw. -/
theorem escape_tracker_no_redraw_flag :
    (({ initState with running := true, statusLine1 := "Ready" } :
        ClaudePTY).processOutput ['\x1b', '[', 'r']).1.needsStatusRedraw = false := by
  decide

/-- C3 as amended: when the tracker, consuming child output character by
character, completes an accumulated sequence equal to the exact bytes
`ESC [ r`, its output during those three characters is exactly the relayed
sequence bytes followed by the re-issued scroll region
(`ESC[1;<child rows>r`) followed — when status text is stored — by the
stored status bar's redraw commands, all before any byte of the remaining
child stream is relayed; the deferred redraw flag is left unchanged;
accumulation starts at `ESC`, ends at a letter or tilde, and a sequence
growing beyond the 20-character safety cap is silently abandoned. -/
theorem escape_tracker_reissues_scroll_region (st : ClaudePTY) (rest : List Char)
    (hesc : st.escBuffer = []) :
    (st.processOutput ('\x1b' :: '[' :: 'r' :: rest)).2 =
      (st.processOutput ['\x1b', '[', 'r']).2 ++
        ((st.processOutput ['\x1b', '[', 'r']).1.processOutput rest).2 ∧
    (st.processOutput ['\x1b', '[', 'r']).2 =
      TermCmd.text ['\x1b'] :: TermCmd.text ['['] :: TermCmd.text ['r'] ::
        TermCmd.setScrollRegion 1 st.ptyLines ::
        (if st.statusLine1 ≠ "" then
          (st.drawStatusBar st.statusLine1 st.statusLine2).2
         else []) ∧
    (st.processOutput ['\x1b', '[', 'r']).1.escBuffer = [] ∧
    (st.processOutput ['\x1b', '[', 'r']).1.needsStatusRedraw = st.needsStatusRedraw ∧
    (∀ (s : ClaudePTY) (c : Char), s.escBuffer = [] → c ≠ '\x1b' →
      (s.trackEscapeSequence c).1.escBuffer = [] ∧ (s.trackEscapeSequence c).2 = []) ∧
    (∀ s : ClaudePTY, (s.trackEscapeSequence '\x1b').1.escBuffer = ['\x1b']) ∧
    (∀ (s : ClaudePTY) (c : Char), s.escBuffer ≠ [] → c ≠ '\x1b' →
      (c.isAlpha = true ∨ c = '~') →
      (s.trackEscapeSequence c).1.escBuffer = []) ∧
    (∀ (s : ClaudePTY) (c : Char), s.escBuffer ≠ [] → c ≠ '\x1b' →
      ¬(c.isAlpha = true ∨ c = '~') → 20 < s.escBuffer.length + 1 →
      (s.trackEscapeSequence c).1.escBuffer = [] ∧
        (s.trackEscapeSequence c).2 = []) := by
  have key :
      (st.processOutput ['\x1b', '[', 'r']).2 =
        TermCmd.text ['\x1b'] :: TermCmd.text ['['] :: TermCmd.text ['r'] ::
          st.restoreStatusBar.2 ∧
      (st.processOutput ['\x1b', '[', 'r']).1.escBuffer = [] ∧
      (st.processOutput ['\x1b', '[', 'r']).1.needsStatusRedraw =
        st.needsStatusRedraw := by
    obtain ⟨r, hp, pa, tl, tc, pl, tty, cw, sb, eb, s1, s2, nr⟩ := st
    simp only at hesc
    subst hesc
    simp only [ClaudePTY.processOutput]
    rw [processOutputChar_esc]
    dsimp only
    rw [processOutputChar_lbracket _ rfl]
    dsimp only
    rw [processOutputChar_r _ rfl]
    dsimp only
    refine ⟨?_, rfl, ?_⟩
    · simp only [List.append_nil, List.cons_append, List.nil_append,
        List.singleton_append]
      rw [restoreStatusBar_snd_congr
        (ClaudePTY.mk r hp pa tl tc pl tty cw
          (screenAppend (screenAppend sb ['\x1b']) ['[']) ['\x1b', '[', 'r']
          s1 s2 nr)
        (ClaudePTY.mk r hp pa tl tc pl tty cw sb [] s1 s2 nr)
        rfl rfl rfl rfl rfl rfl]
    · rw [restoreStatusBar_flag]
  refine ⟨?_, ?_, key.2.1, key.2.2, ?_, ?_, ?_, ?_⟩
  · exact congrArg Prod.snd (processOutput_append ['\x1b', '[', 'r'] st rest)
  · rw [key.1, restoreStatusBar_snd]
  · intro s c hs hc
    simp [ClaudePTY.trackEscapeSequence, hc, hs]
  · intro s
    simp [ClaudePTY.trackEscapeSequence]
  · intro s c hs hc hterm
    have hb : (c.isAlpha || decide (c = '~')) = true := by
      rcases hterm with h | h
      · simp [h]
      · simp [h]
    simp only [ClaudePTY.trackEscapeSequence, if_neg hc, if_pos hs, hb, if_true]
    split_ifs <;> rfl
  · intro s c hs hc hterm hlen
    have hb : (c.isAlpha || decide (c = '~')) = false := by
      cases hA : c.isAlpha with
      | false =>
        rcases eq_or_ne c '~' with h' | h'
        · exact absurd (Or.inr h') hterm
        · simp [h']
      | true => exact absurd (Or.inl hA) hterm
    have hlen' : 20 < (s.escBuffer ++ [c]).length := by
      simpa using hlen
    simp only [ClaudePTY.trackEscapeSequence, if_neg hc, if_pos hs, hb,
      Bool.false_eq_true, if_false, if_pos hlen']
    simp

/-- A running session state with stored status text. -/
def readyState : ClaudePTY :=
  { initState with running := true, statusLine1 := "Ready", statusLine2 := "idle" }

/-- Witness for the amended C3 at a concrete running state with stored
status text, so the instantiated statement includes the actual status-bar
redraw commands after the re-issued scroll region. -/
theorem escape_tracker_reissues_scroll_region_witness :
    ((readyState.processOutput ('\x1b' :: '[' :: 'r' :: ['x'])).2 =
      (readyState.processOutput ['\x1b', '[', 'r']).2 ++
        ((readyState.processOutput ['\x1b', '[', 'r']).1.processOutput ['x']).2 ∧
    (readyState.processOutput ['\x1b', '[', 'r']).2 =
      TermCmd.text ['\x1b'] :: TermCmd.text ['['] :: TermCmd.text ['r'] ::
        TermCmd.setScrollRegion 1 readyState.ptyLines ::
        (if readyState.statusLine1 ≠ "" then
          (readyState.drawStatusBar readyState.statusLine1
            readyState.statusLine2).2
         else []) ∧
    (readyState.processOutput ['\x1b', '[', 'r']).1.escBuffer = [] ∧
    (readyState.processOutput ['\x1b', '[', 'r']).1.needsStatusRedraw =
      readyState.needsStatusRedraw ∧
    (∀ (s : ClaudePTY) (c : Char), s.escBuffer = [] → c ≠ '\x1b' →
      (s.trackEscapeSequence c).1.escBuffer = [] ∧ (s.trackEscapeSequence c).2 = []) ∧
    (∀ s : ClaudePTY, (s.trackEscapeSequence '\x1b').1.escBuffer = ['\x1b']) ∧
    (∀ (s : ClaudePTY) (c : Char), s.escBuffer ≠ [] → c ≠ '\x1b' →
      (c.isAlpha = true ∨ c = '~') →
      (s.trackEscapeSequence c).1.escBuffer = []) ∧
    (∀ (s : ClaudePTY) (c : Char), s.escBuffer ≠ [] → c ≠ '\x1b' →
      ¬(c.isAlpha = true ∨ c = '~') → 20 < s.escBuffer.length + 1 →
      (s.trackEscapeSequence c).1.escBuffer = [] ∧
        (s.trackEscapeSequence c).2 = [])) :=
  escape_tracker_reissues_scroll_region readyState ['x'] rfl

/-- The character class `[a-zA-Z]` of the CSI-stripping regex (and the
terminator class of CPython's ASCII letters). -/
def isAsciiLetter (c : Char) : Bool := ('a' ≤ c && c ≤ 'z') || ('A' ≤ c && c ≤ 'Z')

/-- The character class `[0-9;]` of the CSI-stripping regex. -/
def isCsiParamChar (c : Char) : Bool := ('0' ≤ c && c ≤ '9') || c = ';'

lemma charLe_toNat {a b : Char} (h : a ≤ b) : a.val.toNat ≤ b.val.toNat :=
  Char.le_def.mp h

lemma isAsciiLetter_not_param (c : Char) (h : isAsciiLetter c = true) :
    isCsiParamChar c = false := by
  cases hp : isCsiParamChar c
  · rfl
  exfalso
  simp only [isAsciiLetter, Bool.or_eq_true, Bool.and_eq_true, decide_eq_true_eq] at h
  simp only [isCsiParamChar, Bool.or_eq_true, Bool.and_eq_true, decide_eq_true_eq] at hp
  rcases hp with ⟨p1, p2⟩ | hsemi
  · have p1' := charLe_toNat p1
    have p2' := charLe_toNat p2
    have h0 : ('0' : Char).val.toNat = 48 := by decide
    have h9 : ('9' : Char).val.toNat = 57 := by decide
    have hA : ('A' : Char).val.toNat = 65 := by decide
    have hZ : ('Z' : Char).val.toNat = 90 := by decide
    have ha : ('a' : Char).val.toNat = 97 := by decide
    have hz : ('z' : Char).val.toNat = 122 := by decide
    rcases h with ⟨h1, h2⟩ | ⟨h1, h2⟩ <;>
      · have h1' := charLe_toNat h1
        have h2' := charLe_toNat h2
        omega
  · rw [hsemi] at h
    rcases h with ⟨h1, h2⟩ | ⟨h1, h2⟩ <;> revert h1 h2 <;> decide

/-- Attempted match of the part of `\x1b\[[0-9;]*[a-zA-Z]` after `ESC [`:
consume `[0-9;]*` greedily, then require a letter; returns what follows
the match.  Greedy matching cannot backtrack into success here because the
parameter and terminator classes are disjoint. -/
def csiTail : List Char → Option (List Char)
  | [] => none
  | c :: rest =>
    if isCsiParamChar c then csiTail rest
    else if isAsciiLetter c then some rest
    else none

/-- Attempted match of the regex `\x1b\[[0-9;]*[a-zA-Z]` at the head of the
list. -/
def csiMatch : List Char → Option (List Char)
  | c1 :: c2 :: rest => if c1 = '\x1b' ∧ c2 = '[' then csiTail rest else none
  | _ => none

/-- Model of `re.sub(r'\x1b\[[0-9;]*[a-zA-Z]', '', text)` as a left-to-right scan
(exactly the leftmost-match semantics of `re.sub`), with the list length
as structural fuel so the definition stays executable. -/
def subCsiF : Nat → List Char → List Char
  | 0, l => l
  | _ + 1, [] => []
  | n + 1, c :: rest =>
    match csiMatch (c :: rest) with
    | some rest' => subCsiF n rest'
    | none => c :: subCsiF n rest

def subCsi (l : List Char) : List Char := subCsiF l.length l

/-- Attempted match of the part of `\x1b\][^\x07]*\x07` after `ESC ]`: the
greedy `[^\x07]*` can end only at the first BEL, so the match consumes up
to and including the first `\x07`, and fails when none follows. -/
def oscTail : List Char → Option (List Char)
  | [] => none
  | c :: rest => if c = '\x07' then some rest else oscTail rest

/-- Attempted match of the regex `\x1b\][^\x07]*\x07` at the head of the
list. -/
def oscMatch : List Char → Option (List Char)
  | c1 :: c2 :: rest => if c1 = '\x1b' ∧ c2 = ']' then oscTail rest else none
  | _ => none

/-- Model of `re.sub(r'\x1b\][^\x07]*\x07', '', text)` as a left-to-right scan. -/
def subOscF : Nat → List Char → List Char
  | 0, l => l
  | _ + 1, [] => []
  | n + 1, c :: rest =>
    match oscMatch (c :: rest) with
    | some rest' => subOscF n rest'
    | none => c :: subOscF n rest

def subOsc (l : List Char) : List Char := subOscF l.length l

/-- The ANSI stripping performed by `get_screen_state`: first the CSI
substitution, then the OSC substitution. -/
def stripAnsi (l : List Char) : List Char := subOsc (subCsi l)

/-- Python `text.split('\n')`. -/
def splitLines : List Char → List (List Char)
  | [] => [[]]
  | c :: rest =>
    match splitLines rest with
    | [] => [[]]
    | l :: ls => if c = '\n' then [] :: l :: ls else (c :: l) :: ls

/-- Method `ClaudePTY.get_screen_state`: strip ANSI sequences from the screen
buffer and keep the last 50 lines, rejoined with newlines. -/
def ClaudePTY.getScreenState (st : ClaudePTY) : List Char :=
  let lines := splitLines (stripAnsi st.screenBuffer)
  List.intercalate ['\n'] (lines.drop (lines.length - 50))

lemma csiTail_length : ∀ l r, csiTail l = some r → r.length < l.length := by
  intro l
  induction l with
  | nil => intro r h; simp [csiTail] at h
  | cons c rest ih =>
    intro r h
    simp only [csiTail] at h
    split_ifs at h
    · exact Nat.lt_trans (ih r h) (by simp)
    · obtain rfl := Option.some.injEq .. ▸ h
      simp_all

lemma csiMatch_length : ∀ l r, csiMatch l = some r → r.length < l.length := by
  intro l r h
  match l with
  | [] => simp [csiMatch] at h
  | [c] => simp [csiMatch] at h
  | c1 :: c2 :: rest =>
    simp only [csiMatch] at h
    split_ifs at h
    · have := csiTail_length rest r h
      simp only [List.length_cons]
      omega

lemma oscTail_length : ∀ l r, oscTail l = some r → r.length < l.length := by
  intro l
  induction l with
  | nil => intro r h; simp [oscTail] at h
  | cons c rest ih =>
    intro r h
    simp only [oscTail] at h
    split_ifs at h
    · obtain rfl := Option.some.injEq .. ▸ h
      simp_all
    · exact Nat.lt_trans (ih r h) (by simp)

lemma oscMatch_length : ∀ l r, oscMatch l = some r → r.length < l.length := by
  intro l r h
  match l with
  | [] => simp [oscMatch] at h
  | [c] => simp [oscMatch] at h
  | c1 :: c2 :: rest =>
    simp only [oscMatch] at h
    split_ifs at h
    · have := oscTail_length rest r h
      simp only [List.length_cons]
      omega

lemma subCsiF_nil : ∀ n, subCsiF n [] = [] := by
  intro n; cases n <;> rfl

lemma subOscF_nil : ∀ n, subOscF n [] = [] := by
  intro n; cases n <;> rfl

lemma subCsiF_congr : ∀ n m l, l.length ≤ n → l.length ≤ m →
    subCsiF n l = subCsiF m l := by
  intro n
  induction n using Nat.strong_induction_on with
  | _ n ih =>
    intro m l hn hm
    match n, l with
    | 0, l =>
      interval_cases hl : l.length
      · rw [List.length_eq_zero] at hl
        subst hl
        rw [subCsiF_nil, subCsiF_nil]
    | n + 1, [] => rw [subCsiF_nil, subCsiF_nil]
    | n + 1, c :: rest =>
      match m with
      | 0 => simp at hm
      | m + 1 =>
        simp only [subCsiF]
        cases hcm : csiMatch (c :: rest) with
        | some r' =>
          have hlt := csiMatch_length _ _ hcm
          simp only [List.length_cons] at hn hm hlt
          exact ih n (by omega) m r' (by omega) (by omega)
        | none =>
          simp only [List.length_cons] at hn hm
          rw [ih n (by omega) m rest (by omega) (by omega)]

lemma subOscF_congr : ∀ n m l, l.length ≤ n → l.length ≤ m →
    subOscF n l = subOscF m l := by
  intro n
  induction n using Nat.strong_induction_on with
  | _ n ih =>
    intro m l hn hm
    match n, l with
    | 0, l =>
      interval_cases hl : l.length
      · rw [List.length_eq_zero] at hl
        subst hl
        rw [subOscF_nil, subOscF_nil]
    | n + 1, [] => rw [subOscF_nil, subOscF_nil]
    | n + 1, c :: rest =>
      match m with
      | 0 => simp at hm
      | m + 1 =>
        simp only [subOscF]
        cases hcm : oscMatch (c :: rest) with
        | some r' =>
          have hlt := oscMatch_length _ _ hcm
          simp only [List.length_cons] at hn hm hlt
          exact ih n (by omega) m r' (by omega) (by omega)
        | none =>
          simp only [List.length_cons] at hn hm
          rw [ih n (by omega) m rest (by omega) (by omega)]

lemma subCsi_cons_of_match (c : Char) (rest r' : List Char)
    (h : csiMatch (c :: rest) = some r') : subCsi (c :: rest) = subCsi r' := by
  have hlt := csiMatch_length _ _ h
  unfold subCsi
  simp only [List.length_cons, subCsiF, h]
  exact subCsiF_congr _ _ _ (by simp only [List.length_cons] at hlt; omega) le_rfl

lemma subCsi_cons_of_none (c : Char) (rest : List Char)
    (h : csiMatch (c :: rest) = none) : subCsi (c :: rest) = c :: subCsi rest := by
  unfold subCsi
  simp only [List.length_cons, subCsiF, h]

lemma subOsc_cons_of_match (c : Char) (rest r' : List Char)
    (h : oscMatch (c :: rest) = some r') : subOsc (c :: rest) = subOsc r' := by
  have hlt := oscMatch_length _ _ h
  unfold subOsc
  simp only [List.length_cons, subOscF, h]
  exact subOscF_congr _ _ _ (by simp only [List.length_cons] at hlt; omega) le_rfl

lemma subOsc_cons_of_none (c : Char) (rest : List Char)
    (h : oscMatch (c :: rest) = none) : subOsc (c :: rest) = c :: subOsc rest := by
  unfold subOsc
  simp only [List.length_cons, subOscF, h]

lemma csiMatch_none_of_head (c : Char) (rest : List Char) (h : c ≠ '\x1b') :
    csiMatch (c :: rest) = none := by
  cases rest with
  | nil => rfl
  | cons c2 r => simp [csiMatch, h]

lemma oscMatch_none_of_head (c : Char) (rest : List Char) (h : c ≠ '\x1b') :
    oscMatch (c :: rest) = none := by
  cases rest with
  | nil => rfl
  | cons c2 r => simp [oscMatch, h]

lemma subCsi_append_noesc (a : List Char) (ha : '\x1b' ∉ a) (b : List Char) :
    subCsi (a ++ b) = a ++ subCsi b := by
  induction a with
  | nil => rfl
  | cons c a' ih =>
    have hc : c ≠ '\x1b' := fun hc => ha (hc ▸ List.mem_cons_self c a')
    rw [List.cons_append,
      subCsi_cons_of_none c (a' ++ b) (csiMatch_none_of_head _ _ hc),
      ih (fun hm => ha (List.mem_cons_of_mem c hm)), List.cons_append]

lemma subOsc_append_noesc (a : List Char) (ha : '\x1b' ∉ a) (b : List Char) :
    subOsc (a ++ b) = a ++ subOsc b := by
  induction a with
  | nil => rfl
  | cons c a' ih =>
    have hc : c ≠ '\x1b' := fun hc => ha (hc ▸ List.mem_cons_self c a')
    rw [List.cons_append,
      subOsc_cons_of_none c (a' ++ b) (oscMatch_none_of_head _ _ hc),
      ih (fun hm => ha (List.mem_cons_of_mem c hm)), List.cons_append]

lemma subCsi_of_noesc (a : List Char) (ha : '\x1b' ∉ a) : subCsi a = a := by
  have h2 : subCsi ([] : List Char) = [] := rfl
  have := subCsi_append_noesc a ha []
  simpa [h2] using this

lemma subOsc_of_noesc (a : List Char) (ha : '\x1b' ∉ a) : subOsc a = a := by
  have h2 : subOsc ([] : List Char) = [] := rfl
  have := subOsc_append_noesc a ha []
  simpa [h2] using this

lemma csiMatch_none_of_second (c1 c2 : Char) (rest : List Char) (h : c2 ≠ '[') :
    csiMatch (c1 :: c2 :: rest) = none := by
  simp [csiMatch, h]

lemma csiTail_params (p : List Char) (hp : ∀ c ∈ p, isCsiParamChar c = true)
    (t : Char) (ht : isAsciiLetter t = true) (b : List Char) :
    csiTail (p ++ t :: b) = some b := by
  induction p with
  | nil => simp [csiTail, isAsciiLetter_not_param t ht, ht]
  | cons c p' ih =>
    simp only [List.cons_append, csiTail, hp c (List.mem_cons_self c p'), if_true]
    exact ih (fun d hd => hp d (List.mem_cons_of_mem c hd))

lemma oscTail_body (body : List Char) (hb : '\x07' ∉ body) (rest : List Char) :
    oscTail (body ++ '\x07' :: rest) = some rest := by
  induction body with
  | nil => simp [oscTail]
  | cons c b' ih =>
    have hc : c ≠ '\x07' := fun h => hb (h ▸ List.mem_cons_self c b')
    simp only [List.cons_append, oscTail, hc, if_false]
    exact ih (fun h => hb (List.mem_cons_of_mem c h))

/-- One well-formed fragment of child output: plain text (no `ESC`), a
CSI-style sequence `ESC [ params letter`, or an OSC-style sequence
`ESC ] body BEL`. -/
inductive AnsiChunk where
  | plain (s : List Char)
  | csi (params : List Char) (t : Char)
  | osc (body : List Char)
  deriving DecidableEq, Repr

/-- Well-formedness of a fragment: plain text has no escape character, CSI
parameters lie in `[0-9;]` with a letter terminator, an OSC body contains
neither BEL nor ESC. -/
def AnsiChunk.wf : AnsiChunk → Bool
  | .plain s => decide ('\x1b' ∉ s)
  | .csi p t => decide (∀ c ∈ p, isCsiParamChar c = true) && isAsciiLetter t
  | .osc b => decide ('\x07' ∉ b) && decide ('\x1b' ∉ b)

/-- The byte sequence of a fragment. -/
def AnsiChunk.flat : AnsiChunk → List Char
  | .plain s => s
  | .csi p t => '\x1b' :: '[' :: (p ++ [t])
  | .osc b => '\x1b' :: ']' :: (b ++ ['\x07'])

def flatChunks (l : List AnsiChunk) : List Char := (l.map AnsiChunk.flat).flatten

/-- The plain text of a fragment (empty for control sequences). -/
def plainOnly : AnsiChunk → List Char
  | .plain s => s
  | _ => []

def plainChunks (l : List AnsiChunk) : List Char := (l.map plainOnly).flatten

/-- A fragment's bytes with CSI sequences deleted. -/
def dropCsi : AnsiChunk → List Char
  | .csi _ _ => []
  | ch => ch.flat

def flatNoCsi (l : List AnsiChunk) : List Char := (l.map dropCsi).flatten

lemma flatChunks_cons (ch : AnsiChunk) (rest : List AnsiChunk) :
    flatChunks (ch :: rest) = ch.flat ++ flatChunks rest := by
  simp [flatChunks]

lemma flatNoCsi_cons (ch : AnsiChunk) (rest : List AnsiChunk) :
    flatNoCsi (ch :: rest) = dropCsi ch ++ flatNoCsi rest := by
  simp [flatNoCsi]

lemma plainChunks_cons (ch : AnsiChunk) (rest : List AnsiChunk) :
    plainChunks (ch :: rest) = plainOnly ch ++ plainChunks rest := by
  simp [plainChunks]

lemma subCsi_flatChunks (l : List AnsiChunk) (h : ∀ ch ∈ l, ch.wf = true) :
    subCsi (flatChunks l) = flatNoCsi l := by
  induction l with
  | nil => rfl
  | cons ch rest ih =>
    have hch := h ch (List.mem_cons_self ch rest)
    have hrest := ih (fun c hc => h c (List.mem_cons_of_mem _ hc))
    rw [flatChunks_cons, flatNoCsi_cons]
    cases ch with
    | plain s =>
      have hs : '\x1b' ∉ s := by simpa [AnsiChunk.wf] using hch
      rw [show AnsiChunk.flat (AnsiChunk.plain s) = s from rfl,
        show dropCsi (AnsiChunk.plain s) = s from rfl,
        subCsi_append_noesc s hs, hrest]
    | csi p t =>
      have hpt : (∀ c ∈ p, isCsiParamChar c = true) ∧ isAsciiLetter t = true := by
        simpa [AnsiChunk.wf] using hch
      rw [show AnsiChunk.flat (AnsiChunk.csi p t) = '\x1b' :: '[' :: (p ++ [t])
          from rfl,
        show dropCsi (AnsiChunk.csi p t) = [] from rfl]
      simp only [List.cons_append, List.append_assoc, List.singleton_append,
        List.nil_append]
      have hm : csiMatch ('\x1b' :: '[' :: (p ++ t :: flatChunks rest)) =
          some (flatChunks rest) := by
        rw [show csiMatch ('\x1b' :: '[' :: (p ++ t :: flatChunks rest)) =
            csiTail (p ++ t :: flatChunks rest) from rfl]
        exact csiTail_params p hpt.1 t hpt.2 (flatChunks rest)
      rw [subCsi_cons_of_match _ _ _ hm, hrest]
    | osc b =>
      have hb : '\x07' ∉ b ∧ '\x1b' ∉ b := by
        simpa [AnsiChunk.wf] using hch
      rw [show AnsiChunk.flat (AnsiChunk.osc b) = '\x1b' :: ']' :: (b ++ ['\x07'])
          from rfl,
        show dropCsi (AnsiChunk.osc b) = '\x1b' :: ']' :: (b ++ ['\x07'])
          from rfl]
      simp only [List.cons_append, List.append_assoc, List.singleton_append,
        List.nil_append]
      have hm : csiMatch ('\x1b' :: ']' :: (b ++ '\x07' :: flatChunks rest)) =
          none := csiMatch_none_of_second _ _ _ (by decide)
      rw [subCsi_cons_of_none _ _ hm]
      have hne : '\x1b' ∉ (']' :: (b ++ ['\x07'])) := by
        intro hmem
        rcases List.mem_cons.mp hmem with h' | h'
        · exact absurd h'.symm (by decide)
        · rcases List.mem_append.mp h' with h'' | h''
          · exact hb.2 h''
          · rw [List.mem_singleton] at h''
            exact absurd h''.symm (by decide)
      have happ := subCsi_append_noesc (']' :: (b ++ ['\x07'])) hne (flatChunks rest)
      simp only [List.cons_append, List.append_assoc, List.singleton_append,
        List.nil_append] at happ
      rw [happ, hrest]

lemma subOsc_flatNoCsi (l : List AnsiChunk) (h : ∀ ch ∈ l, ch.wf = true) :
    subOsc (flatNoCsi l) = plainChunks l := by
  induction l with
  | nil => rfl
  | cons ch rest ih =>
    have hch := h ch (List.mem_cons_self ch rest)
    have hrest := ih (fun c hc => h c (List.mem_cons_of_mem _ hc))
    rw [flatNoCsi_cons, plainChunks_cons]
    cases ch with
    | plain s =>
      have hs : '\x1b' ∉ s := by simpa [AnsiChunk.wf] using hch
      rw [show dropCsi (AnsiChunk.plain s) = s from rfl,
        show plainOnly (AnsiChunk.plain s) = s from rfl,
        subOsc_append_noesc s hs, hrest]
    | csi p t =>
      rw [show dropCsi (AnsiChunk.csi p t) = [] from rfl,
        show plainOnly (AnsiChunk.csi p t) = [] from rfl]
      simpa using hrest
    | osc b =>
      have hb : '\x07' ∉ b ∧ '\x1b' ∉ b := by
        simpa [AnsiChunk.wf] using hch
      rw [show dropCsi (AnsiChunk.osc b) = '\x1b' :: ']' :: (b ++ ['\x07'])
          from rfl,
        show plainOnly (AnsiChunk.osc b) = [] from rfl]
      simp only [List.cons_append, List.append_assoc, List.singleton_append,
        List.nil_append]
      have hm : oscMatch ('\x1b' :: ']' :: (b ++ '\x07' :: flatNoCsi rest)) =
          some (flatNoCsi rest) := by
        rw [show oscMatch ('\x1b' :: ']' :: (b ++ '\x07' :: flatNoCsi rest)) =
            oscTail (b ++ '\x07' :: flatNoCsi rest) from rfl]
        exact oscTail_body b hb.1 (flatNoCsi rest)
      rw [subOsc_cons_of_match _ _ _ hm, hrest]

lemma noesc_plainChunks (l : List AnsiChunk) (h : ∀ ch ∈ l, ch.wf = true) :
    '\x1b' ∉ plainChunks l := by
  induction l with
  | nil => simp [plainChunks]
  | cons ch rest ih =>
    have hch := h ch (List.mem_cons_self ch rest)
    have hrest := ih (fun c hc => h c (List.mem_cons_of_mem _ hc))
    rw [plainChunks_cons]
    intro hmem
    rcases List.mem_append.mp hmem with hmem | hmem
    · cases ch with
      | plain s =>
        have hs : '\x1b' ∉ s := by simpa [AnsiChunk.wf] using hch
        exact hs hmem
      | csi p t => simp [plainOnly] at hmem
      | osc b => simp [plainOnly] at hmem
    · exact hrest hmem

/-- C4: for every string interleaving plain text with well-formed CSI-style
(`ESC[...letter`) and OSC-style (`ESC]...BEL`) sequences, the ANSI
stripping performed by `get_screen_state` (the CSI substitution followed by
the OSC substitution) removes all such sequences and yields exactly the
plain text, independent of ordering or count; on such inputs stripping is
idempotent. -/
theorem strip_ansi_yields_plain_text (chunks : List AnsiChunk)
    (h : ∀ ch ∈ chunks, ch.wf = true) :
    stripAnsi (flatChunks chunks) = plainChunks chunks ∧
    stripAnsi (stripAnsi (flatChunks chunks)) = stripAnsi (flatChunks chunks) := by
  have h1 : stripAnsi (flatChunks chunks) = plainChunks chunks := by
    unfold stripAnsi
    rw [subCsi_flatChunks chunks h, subOsc_flatNoCsi chunks h]
  refine ⟨h1, ?_⟩
  rw [h1]
  unfold stripAnsi
  rw [subCsi_of_noesc _ (noesc_plainChunks chunks h),
    subOsc_of_noesc _ (noesc_plainChunks chunks h)]

/-- A concrete interleaving used as the C4 witness. -/
def sampleChunks : List AnsiChunk :=
  [AnsiChunk.plain "Hello ".data, AnsiChunk.csi "1;31".data 'm',
   AnsiChunk.plain "world".data, AnsiChunk.osc "0;title".data,
   AnsiChunk.plain "!".data]

/-- Witness for C4 on a concrete interleaving. -/
theorem strip_ansi_yields_plain_text_witness :
    stripAnsi (flatChunks sampleChunks) = plainChunks sampleChunks ∧
    stripAnsi (stripAnsi (flatChunks sampleChunks)) =
      stripAnsi (flatChunks sampleChunks) :=
  strip_ansi_yields_plain_text sampleChunks (by decide)

/-- Python `pat in s` (substring containment): a prefix match at some
position. -/
def startsWithChars : List Char → List Char → Bool
  | [], _ => true
  | _ :: _, [] => false
  | p :: ps, c :: cs => p == c && startsWithChars ps cs

def containsSub (pat : List Char) : List Char → Bool
  | [] => pat.isEmpty
  | c :: rest => startsWithChars pat (c :: rest) || containsSub pat rest

lemma startsWithChars_iff (p : List Char) :
    ∀ l, startsWithChars p l = true ↔ p <+: l := by
  induction p with
  | nil => intro l; simp [startsWithChars]
  | cons a ps ih =>
    intro l
    cases l with
    | nil => simp [startsWithChars]
    | cons c cs =>
      simp only [startsWithChars, Bool.and_eq_true, beq_iff_eq, ih cs,
        List.cons_prefix_cons]

lemma containsSub_iff (pat : List Char) :
    ∀ l, containsSub pat l = true ↔ pat <:+: l := by
  intro l
  induction l with
  | nil =>
    simp only [containsSub, List.isEmpty_iff, List.infix_nil]
  | cons c rest ih =>
    simp only [containsSub, Bool.or_eq_true, startsWithChars_iff, ih,
      List.infix_cons_iff]

/-- The body of the `_read_input_unix` loop for one decoded input chunk:
if the chunk contains a mouse-tracking marker (`"\x1b[M"` legacy or
`"\x1b[<"` SGR), the whole chunk is skipped (`continue`); otherwise the
chunk is sent to the child unchanged. -/
def readInputChunk (data : List Char) : List (List Char) :=
  if containsSub ['\x1b', '[', 'M'] data || containsSub ['\x1b', '[', '<'] data
  then []
  else [data]

/-- C6 counterexample: the chunk `"ab" ++ ESC[M ++ "cd"` contains the bytes
`a`, `b`, `c`, `d`, none of which is part of a mouse-tracking sequence, yet
nothing at all is forwarded to the child: the relay drops the entire chunk,
not just the mouse sequence. -/
theorem input_filter_drops_whole_chunk :
    (readInputChunk "ab\x1b[Mcd".data).flatten = [] ∧
    'a' ∈ "ab\x1b[Mcd".data := by
  decide

/-- C6 as amended: the input relay inspects each chunk for the
mouse-tracking markers `ESC[M` (legacy) and `ESC[<` (SGR-extended); a chunk
containing either marker is dropped in its entirety (no byte of it reaches
the child), and a chunk containing neither is forwarded to the child
verbatim. -/
theorem input_filter_chunk_behavior (data : List Char) :
    readInputChunk data =
      if ['\x1b', '[', 'M'] <:+: data ∨ ['\x1b', '[', '<'] <:+: data then []
      else [data] := by
  unfold readInputChunk
  have e1 := containsSub_iff ['\x1b', '[', 'M'] data
  have e2 := containsSub_iff ['\x1b', '[', '<'] data
  split_ifs with hb hp hp
  · rfl
  · exfalso
    rw [Bool.or_eq_true] at hb
    rcases hb with h | h
    · exact hp (Or.inl (e1.mp h))
    · exact hp (Or.inr (e2.mp h))
  · exfalso
    apply hb
    rw [Bool.or_eq_true]
    rcases hp with h | h
    · exact Or.inl (e1.mpr h)
    · exact Or.inr (e2.mpr h)
  · rfl

/-- The ASCII core of the regex class `\s` (Python whitespace). -/
def isSpaceChar (c : Char) : Bool :=
  c = ' ' || c = '\t' || c = '\n' || c = '\r' || c = '\x0b' || c = '\x0c'

/-- The regex class `\d` (ASCII digits). -/
def isAsciiDigit (c : Char) : Bool := '0' ≤ c && c ≤ '9'

/-- The ASCII core of the regex class `\w`. -/
def isWordChar (c : Char) : Bool := isAsciiLetter c || isAsciiDigit c || c = '_'

/-- The four literal alternatives of the yes/no prompt regex
`\[(?:y/n|Y/N|yes/no|Yes/No)\]`. -/
def yesNoPats : List (List Char) :=
  ["[y/n]".data, "[Y/N]".data, "[yes/no]".data, "[Yes/No]".data]

/-- Model of `re.search(r'\[(?:y/n|Y/N|yes/no|Yes/No)\]', text)`: one of four
literal substrings occurs. -/
def hasYesNo (text : List Char) : Bool :=
  yesNoPats.any (fun p => containsSub p text)

/-- Match of `\s*\d+\.\s+\w+` at the current position.  All adjacent
classes are disjoint, so the regex engine's greedy matching is equivalent
to this deterministic munch. -/
def numberedHere (l : List Char) : Bool :=
  let l1 := l.dropWhile isSpaceChar
  let ds := l1.takeWhile isAsciiDigit
  let l2 := l1.drop ds.length
  !ds.isEmpty &&
    match l2 with
    | '.' :: l3 =>
      let ws := l3.takeWhile isSpaceChar
      let l4 := l3.drop ws.length
      !ws.isEmpty &&
        match l4 with
        | c :: _ => isWordChar c
        | [] => false
    | _ => false

/-- Model of `re.search(r'(?m)^\s*\d+\.\s+\w+', text)`: the pattern matches at the
start of the string or just after some newline. -/
def numberedScan : Bool → List Char → Bool
  | _, [] => false
  | atStart, c :: rest =>
    (atStart && numberedHere (c :: rest)) || numberedScan (c = '\n') rest

def hasNumbered (text : List Char) : Bool := numberedScan true text

/-- The word alternatives of the decision-vocabulary regex
`\b(allow|deny|approve|reject|permission|permit|grant|refuse)\b`. -/
def permissionWords : List (List Char) :=
  ["allow".data, "deny".data, "approve".data, "reject".data,
   "permission".data, "permit".data, "grant".data, "refuse".data]

/-- Case-insensitive match of a lowercase word at the head of the text
(`re.IGNORECASE`). -/
def matchCaseless : List Char → List Char → Option (List Char)
  | [], l => some l
  | _ :: _, [] => none
  | w :: ws, c :: cs => if c.toLower = w then matchCaseless ws cs else none

/-- One of the decision words matches here, with a word boundary after. -/
def wordHere (text : List Char) : Bool :=
  permissionWords.any fun w =>
    match matchCaseless w text with
    | some [] => true
    | some (c :: _) => !isWordChar c
    | none => false

/-- Scan for a decision word with a word boundary before (previous
character non-word, or start of string). -/
def wordScan : Bool → List Char → Bool
  | _, [] => false
  | prevWord, c :: rest =>
    (!prevWord && wordHere (c :: rest)) || wordScan (isWordChar c) rest

def hasPermissionWord (text : List Char) : Bool := wordScan false text

/-- Method `ClaudePTY.has_menu_prompt` as a pure classifier over the screen text:
the selection-marker glyph anywhere, or a bracketed yes/no prompt, or a
numbered-list line together with decision vocabulary. -/
def hasMenuPrompt (text : List Char) : Bool :=
  if containsSub ['❯'] text then true
  else if hasYesNo text then true
  else if hasNumbered text && hasPermissionWord text then true
  else false

/-- C9: the `has_menu_prompt` classifier returns true whenever the
selection-marker glyph `❯` occurs anywhere in the text, or a bracketed
yes/no prompt pattern occurs, or a numbered-list line co-occurs with
decision vocabulary (allow/deny/approve/reject/permission/permit/grant/
refuse); in particular it is true on `"❯ 1. Yes\n  2. No"` and on
`"Proceed? [y/n]"`, and false on `"Listening for input..."`. -/
theorem has_menu_prompt_classifier :
    (∀ text : List Char, ['❯'] <:+: text → hasMenuPrompt text = true) ∧
    (∀ text p, p ∈ yesNoPats → p <:+: text → hasMenuPrompt text = true) ∧
    (∀ text : List Char, hasNumbered text = true → hasPermissionWord text = true →
      hasMenuPrompt text = true) ∧
    hasMenuPrompt "❯ 1. Yes\n  2. No".data = true ∧
    hasMenuPrompt "Proceed? [y/n]".data = true ∧
    hasMenuPrompt "Listening for input...".data = false := by
  refine ⟨?_, ?_, ?_, by decide, by decide, by decide⟩
  · intro text hmem
    rw [hasMenuPrompt, if_pos ((containsSub_iff _ _).mpr hmem)]
  · intro text p hp hmem
    rw [hasMenuPrompt]
    split_ifs with h1 h2 h3
    · rfl
    · rfl
    · rfl
    · exfalso
      apply h2
      rw [hasYesNo, List.any_eq_true]
      exact ⟨p, hp, (containsSub_iff _ _).mpr hmem⟩
  · intro text hn hw
    rw [hasMenuPrompt]
    split_ifs with h1 h2 h3
    · rfl
    · rfl
    · rfl
    · exact absurd (by rw [hn, hw]; rfl) h3

/-- Witness for C9: the glyph clause applied at a concrete text. -/
theorem has_menu_prompt_classifier_witness :
    hasMenuPrompt ('x' :: '❯' :: ['y']) = true :=
  has_menu_prompt_classifier.1 ('x' :: '❯' :: ['y']) ⟨['x'], ['y'], rfl⟩
